import Mathlib

/-!
Shallow embedding of the fb_messenger Cassandra data layer
(`app/models/cassandra_models.py` together with the table layout of
`scripts/setup_db.py`).

The store is modelled as two tables kept in Cassandra clustering order:

* `messages_by_conversation` with primary key
  `(conversation_id, message_timestamp, message_id)` and clustering order
  `(message_timestamp DESC, message_id ASC)`;
* `user_conversations` with primary key
  `(user_id, last_activity, conversation_id)` and clustering order
  `(last_activity DESC)` (with `conversation_id ASC` as the default
  tie-break on the trailing clustering column).

An `INSERT` is an upsert on the full primary key: the row with the same
key (if any) is replaced.  UUIDs are modelled by a fresh-counter in the
state (`uuid.uuid4()` never collides), timestamps (`datetime.utcnow()`)
are inputs of each operation, and Python strings are `List Char` (the
slice `text[:100]` is `List.take 100`).  Partition ordering across
partition keys models token order deterministically.
-/

set_option linter.unusedVariables false

namespace Messenger

/-- A row of `messages_by_conversation` (see `setup_db.create_tables`). -/
structure MessageRow where
  conversation_id : Nat
  message_timestamp : Nat
  message_id : Nat
  sender_id : Nat
  message_text : List Char
deriving DecidableEq, Repr

/-- A row of `user_conversations` (see `setup_db.create_tables`).
`participant_ids` is a Cassandra `SET<UUID>`: it is always stored
deduplicated. -/
structure UserConversationRow where
  user_id : Nat
  last_activity : Nat
  conversation_id : Nat
  participant_ids : List Nat
  last_message_preview : List Char
deriving DecidableEq, Repr

/-- Primary key of `messages_by_conversation`. -/
def msgKey (r : MessageRow) : Nat × Nat × Nat :=
  (r.conversation_id, r.message_timestamp, r.message_id)

/-- Primary key of `user_conversations`. -/
def ucKey (r : UserConversationRow) : Nat × Nat × Nat :=
  (r.user_id, r.last_activity, r.conversation_id)

/-- Physical order of `messages_by_conversation`: partition key
ascending (modelling token order), then the clustering order
`(message_timestamp DESC, message_id ASC)`. -/
def MsgLe (a b : MessageRow) : Prop :=
  a.conversation_id < b.conversation_id ∨
    (a.conversation_id = b.conversation_id ∧
      (b.message_timestamp < a.message_timestamp ∨
        (a.message_timestamp = b.message_timestamp ∧ a.message_id ≤ b.message_id)))

instance : DecidableRel MsgLe := fun a b => by unfold MsgLe; infer_instance

instance : IsTotal MessageRow MsgLe := ⟨by intro a b; unfold MsgLe; omega⟩

instance : IsTrans MessageRow MsgLe := ⟨by intro a b c; unfold MsgLe; omega⟩

/-- Physical order of `user_conversations`: partition key ascending,
then the clustering order `(last_activity DESC, conversation_id ASC)`. -/
def UCLe (a b : UserConversationRow) : Prop :=
  a.user_id < b.user_id ∨
    (a.user_id = b.user_id ∧
      (b.last_activity < a.last_activity ∨
        (a.last_activity = b.last_activity ∧ a.conversation_id ≤ b.conversation_id)))

instance : DecidableRel UCLe := fun a b => by unfold UCLe; infer_instance

instance : IsTotal UserConversationRow UCLe := ⟨by intro a b; unfold UCLe; omega⟩

instance : IsTrans UserConversationRow UCLe := ⟨by intro a b c; unfold UCLe; omega⟩

/-- Cassandra `INSERT`: an upsert keyed on the full primary key, with the
table kept in its physical (clustering) order. -/
def upsertRow {κ : Type} [DecidableEq κ] (le : α → α → Prop) [DecidableRel le]
    (key : α → κ) (x : α) (l : List α) : List α :=
  List.orderedInsert le x (l.filter fun a => decide (key a ≠ key x))

def insertMsgRow (x : MessageRow) (l : List MessageRow) : List MessageRow :=
  upsertRow MsgLe msgKey x l

def insertUCRow (x : UserConversationRow) (l : List UserConversationRow) :
    List UserConversationRow :=
  upsertRow UCLe ucKey x l

/-- The whole store: both tables plus the fresh-Nat counter. -/
structure State where
  messages : List MessageRow
  user_conversations : List UserConversationRow
  nextId : Nat
deriving DecidableEq, Repr

def initState : State := ⟨[], [], 0⟩

/-- The partition of `messages_by_conversation` for one conversation, in
clustering order (what `SELECT ... WHERE conversation_id = %s` scans). -/
def msgPartition (s : State) (c : Nat) : List MessageRow :=
  s.messages.filter fun r => decide (r.conversation_id = c)

/-- The partition of `user_conversations` for one user, in clustering
order (`last_activity DESC`). -/
def ucPartition (s : State) (u : Nat) : List UserConversationRow :=
  s.user_conversations.filter fun r => decide (r.user_id = u)

/-- `MessageModel.get_conversation_messages`: the `page` argument is
clamped/ignored (Cassandra has no offset); returns up to `limit` rows of
the partition in clustering order, plus the independent COUNT. -/
def get_conversation_messages (s : State) (conversation_id : Nat)
    (page : Int) (limit : Nat) : List MessageRow × Nat :=
  ((msgPartition s conversation_id).take limit,
    (msgPartition s conversation_id).length)

/-- `MessageModel.get_messages_before_timestamp`: same, restricted to
`message_timestamp < before_timestamp`. -/
def get_messages_before_timestamp (s : State) (conversation_id : Nat)
    (before_timestamp : Nat) (page : Int) (limit : Nat) :
    List MessageRow × Nat :=
  ((((msgPartition s conversation_id).filter fun r =>
      decide (r.message_timestamp < before_timestamp)).take limit),
    ((msgPartition s conversation_id).filter fun r =>
      decide (r.message_timestamp < before_timestamp)).length)

/-- `ConversationModel.get_user_conversations`: up to `limit` summary
rows of the user's partition in clustering order, plus the COUNT. -/
def get_user_conversations (s : State) (user_id : Nat)
    (page : Int) (limit : Nat) : List UserConversationRow × Nat :=
  ((ucPartition s user_id).take limit, (ucPartition s user_id).length)

/-- `ConversationModel.get_conversation`: `SELECT ... WHERE
conversation_id = %s LIMIT 1` — a single representative row with that
`conversation_id`, or NotFound (`none`). -/
def get_conversation (s : State) (conversation_id : Nat) :
    Option UserConversationRow :=
  (s.user_conversations.filter fun r =>
    decide (r.conversation_id = conversation_id)).head?

/-- `if not participant_ids: participant_ids = [sender_id]` — Python
falsiness conflates `None` and the empty list. -/
def resolveParticipants (sender_id : Nat)
    (participant_ids : Option (List Nat)) : List Nat :=
  match participant_ids with
  | none => [sender_id]
  | some l => if l.isEmpty then [sender_id] else l

/-- The summary row written for one participant by `create_message`:
`set(participant_ids)` is `List.dedup`, the preview is
`message_text[:100]`. -/
def summaryRow (user_id : Nat) (ts : Nat) (conversation_id : Nat)
    (resolved : List Nat) (message_text : List Char) : UserConversationRow :=
  ⟨user_id, ts, conversation_id, resolved.dedup, message_text.take 100⟩

/-- The fan-out loop of `create_message`: one `user_conversations`
upsert per resolved participant, in list order. -/
def insertSummaries (ts : Nat) (conversation_id : Nat)
    (resolved : List Nat) (message_text : List Char) (st : State)
    (users : List Nat) : State :=
  users.foldl (fun st uid =>
    { st with user_conversations :=
        (insertUCRow (summaryRow uid ts conversation_id resolved message_text)
          st.user_conversations) }) st

/-- `MessageModel.create_message` with every write succeeding: generates
a fresh `message_id`, writes the message-log row, resolves the
participants, then writes one summary row per participant, all carrying
the single timestamp `ts`.  Returns the new message id and the new
state. -/
def create_message (s : State) (ts : Nat) (conversation_id sender_id : Nat)
    (message_text : List Char) (participant_ids : Option (List Nat)) :
    Nat × State :=
  let message_id := s.nextId
  let msgRow : MessageRow :=
    ⟨conversation_id, ts, message_id, sender_id, message_text⟩
  let s1 : State :=
    { s with messages := insertMsgRow msgRow s.messages, nextId := s.nextId + 1 }
  let resolved := resolveParticipants sender_id participant_ids
  (message_id, insertSummaries ts conversation_id resolved message_text s1 resolved)

/-- The membership test of `create_or_get_conversation`:
`participants and len(participants) == 2 and user_id in participants and
other_user_id in participants`, where `participants` comes from
`get_conversation` (NotFound cannot occur for a scanned candidate). -/
def directMatch (s : State) (user_id other_user_id : Nat)
    (conversation_id : Nat) : Bool :=
  match get_conversation s conversation_id with
  | none => false
  | some row =>
    !row.participant_ids.isEmpty && row.participant_ids.length == 2 &&
      row.participant_ids.contains user_id &&
      row.participant_ids.contains other_user_id

/-- `ConversationModel.create_or_get_conversation`: scans the caller's
summary partition (clustering order, `last_activity DESC`), returns the
first candidate whose fetched summary matches the two-party test with
`created = false`; otherwise creates a fresh conversation id and writes
a summary row for both users with preview `"New conversation"`. -/
def create_or_get_conversation (s : State) (ts : Nat)
    (user_id other_user_id : Nat) : (Nat × Bool) × State :=
  match (ucPartition s user_id).find? (fun r =>
      directMatch s user_id other_user_id r.conversation_id) with
  | some r => ((r.conversation_id, false), s)
  | none =>
    let new_conversation_id := s.nextId
    let participant_ids := [user_id, other_user_id]
    let s1 := participant_ids.foldl (fun st uid =>
      { st with user_conversations :=
          (insertUCRow
            ⟨uid, ts, new_conversation_id, participant_ids.dedup,
              "New conversation".toList⟩
            st.user_conversations) }) s
    ((new_conversation_id, true), { s1 with nextId := s.nextId + 1 })

/-- The write operations that mutate the store. -/
inductive Op where
  | append (ts : Nat) (conversation_id sender_id : Nat)
      (message_text : List Char) (participant_ids : Option (List Nat))
  | direct (ts : Nat) (user_id other_user_id : Nat)

def applyOp (s : State) : Op → State
  | .append ts c snd txt pids => (create_message s ts c snd txt pids).2
  | .direct ts u o => (create_or_get_conversation s ts u o).2

/-- A history of write operations applied to the empty store. -/
def run (ops : List Op) : State := ops.foldl applyOp initState

/-- Fan-out with fault injection: write `i` of a call fails when
`fail i = true` (write 0 is the message-log insert, writes `1..n` the
summary inserts in participant order).  On a failure the `except` clause
of `create_message` re-raises; nothing done so far is rolled back, so
the error carries the partially updated state. -/
def writeSummaries (fail : Nat → Bool) (ts : Nat)
    (conversation_id : Nat) (resolved : List Nat)
    (message_text : List Char) : Nat → State → List Nat → Except State State
  | _, st, [] => Except.ok st
  | i, st, uid :: rest =>
    if fail i then Except.error st
    else
      writeSummaries fail ts conversation_id resolved message_text (i + 1)
        { st with user_conversations :=
            (insertUCRow (summaryRow uid ts conversation_id resolved message_text)
              st.user_conversations) }
        rest

/-- `MessageModel.create_message` under the fault model: each store
write is attempted once, in order, and the first failing write aborts
the call, leaving the completed writes in place. -/
def create_message_faulty (fail : Nat → Bool) (s : State) (ts : Nat)
    (conversation_id sender_id : Nat) (message_text : List Char)
    (participant_ids : Option (List Nat)) : Except State (Nat × State) :=
  let message_id := s.nextId
  let s0 : State := { s with nextId := s.nextId + 1 }
  if fail 0 then Except.error s0
  else
    let msgRow : MessageRow :=
      ⟨conversation_id, ts, message_id, sender_id, message_text⟩
    let s1 : State := { s0 with messages := insertMsgRow msgRow s0.messages }
    let resolved := resolveParticipants sender_id participant_ids
    match writeSummaries fail ts conversation_id resolved message_text 1 s1
        resolved with
    | Except.error st => Except.error st
    | Except.ok st => Except.ok (message_id, st)

/-! ### Generic store lemmas -/

theorem mem_upsertRow {α : Type} {κ : Type} [DecidableEq κ] (le : α → α → Prop)
    [DecidableRel le] (key : α → κ) (x a : α) (l : List α) :
    a ∈ upsertRow le key x l ↔ a = x ∨ (a ∈ l ∧ key a ≠ key x) := by
  unfold upsertRow
  rw [List.mem_orderedInsert]
  simp [List.mem_filter]

theorem sorted_upsertRow {α : Type} {κ : Type} [DecidableEq κ]
    (le : α → α → Prop) [DecidableRel le] [IsTotal α le] [IsTrans α le]
    (key : α → κ) (x : α) (l : List α) (hl : l.Sorted le) :
    (upsertRow le key x l).Sorted le :=
  List.Sorted.orderedInsert x _ (List.Pairwise.filter _ hl)

theorem filter_orderedInsert_of_neg {α : Type} (le : α → α → Prop)
    [DecidableRel le] {p : α → Bool} (x : α) (hx : p x = false) :
    ∀ l : List α, (List.orderedInsert le x l).filter p = l.filter p
  | [] => by simp [List.orderedInsert, hx]
  | b :: l => by
    by_cases h : le x b
    · simp [List.orderedInsert, if_pos h, List.filter_cons, hx]
    · simp only [List.orderedInsert, if_neg h, List.filter_cons,
        filter_orderedInsert_of_neg le x hx l]

theorem filter_filter_of_imp {α : Type} {p q : α → Bool}
    (h : ∀ a, p a = true → q a = true) :
    ∀ l : List α, (l.filter q).filter p = l.filter p
  | [] => rfl
  | a :: l => by
    rcases hq : q a with _ | _
    · rcases hp : p a with _ | _
      · simp [List.filter_cons, hq, hp, filter_filter_of_imp h l]
      · exact absurd (h a hp) (by simp [hq])
    · simp [List.filter_cons, hq, filter_filter_of_imp h l]

theorem filter_upsertRow_of_neg {α : Type} {κ : Type} [DecidableEq κ]
    (le : α → α → Prop) [DecidableRel le] (key : α → κ) (x : α)
    {p : α → Bool} (hx : p x = false)
    (hkey : ∀ a, key a = key x → p a = false) (l : List α) :
    (upsertRow le key x l).filter p = l.filter p := by
  unfold upsertRow
  rw [filter_orderedInsert_of_neg le x hx]
  exact filter_filter_of_imp (fun a hp => by
    rcases hk : decide (key a ≠ key x) with _ | _
    · exact absurd (hkey a (by simpa using hk)) (by simp [hp])
    · rfl) l

/-! ### Lemmas about the fan-out loop of `create_message` -/

theorem insertSummaries_cons (ts conversation_id : Nat) (resolved : List Nat)
    (message_text : List Char) (st : State) (v : Nat) (users : List Nat) :
    insertSummaries ts conversation_id resolved message_text st (v :: users) =
      insertSummaries ts conversation_id resolved message_text
        { st with user_conversations :=
            (insertUCRow (summaryRow v ts conversation_id resolved message_text)
              st.user_conversations) }
        users := rfl

theorem insertSummaries_messages (ts conversation_id : Nat)
    (resolved : List Nat) (message_text : List Char) :
    ∀ (users : List Nat) (st : State),
      (insertSummaries ts conversation_id resolved message_text st users).messages
        = st.messages
  | [], st => rfl
  | u :: users, st => by
    simpa [insertSummaries, List.foldl] using
      insertSummaries_messages ts conversation_id resolved message_text users _

theorem insertSummaries_nextId (ts conversation_id : Nat)
    (resolved : List Nat) (message_text : List Char) :
    ∀ (users : List Nat) (st : State),
      (insertSummaries ts conversation_id resolved message_text st users).nextId
        = st.nextId
  | [], st => rfl
  | u :: users, st => by
    simpa [insertSummaries, List.foldl] using
      insertSummaries_nextId ts conversation_id resolved message_text users _

theorem insertSummaries_sorted (ts conversation_id : Nat)
    (resolved : List Nat) (message_text : List Char) :
    ∀ (users : List Nat) (st : State),
      st.user_conversations.Sorted UCLe →
      (insertSummaries ts conversation_id resolved message_text st
          users).user_conversations.Sorted UCLe
  | [], st, h => h
  | u :: users, st, h => by
    simp only [insertSummaries, List.foldl]
    exact insertSummaries_sorted ts conversation_id resolved message_text users _
      (sorted_upsertRow UCLe ucKey _ _ h)

theorem insertSummaries_mem_of_ne_ts (ts conversation_id : Nat)
    (resolved : List Nat) (message_text : List Char)
    (r0 : UserConversationRow) (hts : r0.last_activity ≠ ts) :
    ∀ (users : List Nat) (st : State),
      r0 ∈ st.user_conversations →
      r0 ∈ (insertSummaries ts conversation_id resolved message_text st
          users).user_conversations
  | [], st, h => h
  | u :: users, st, h => by
    simp only [insertSummaries, List.foldl]
    refine insertSummaries_mem_of_ne_ts ts conversation_id resolved message_text
      r0 hts users _ ?_
    refine (mem_upsertRow UCLe ucKey _ r0 _).mpr (Or.inr ⟨h, ?_⟩)
    intro hk
    exact hts (congrArg (fun k => k.2.1) hk)

theorem summaryRow_mem_insertUCRow (uid u2 ts conversation_id : Nat)
    (resolved : List Nat) (message_text : List Char)
    (l : List UserConversationRow)
    (h : summaryRow uid ts conversation_id resolved message_text ∈ l) :
    summaryRow uid ts conversation_id resolved message_text ∈
      insertUCRow (summaryRow u2 ts conversation_id resolved message_text) l := by
  by_cases huu : uid = u2
  · subst huu
    exact (mem_upsertRow UCLe ucKey _ _ _).mpr (Or.inl rfl)
  · refine (mem_upsertRow UCLe ucKey _ _ _).mpr (Or.inr ⟨h, ?_⟩)
    intro hk
    exact huu (congrArg (fun k => k.1) hk)

theorem summaryRow_mem_insertSummaries_aux (uid ts conversation_id : Nat)
    (resolved : List Nat) (message_text : List Char) :
    ∀ (users : List Nat) (st : State),
      summaryRow uid ts conversation_id resolved message_text ∈
        st.user_conversations →
      summaryRow uid ts conversation_id resolved message_text ∈
        (insertSummaries ts conversation_id resolved message_text st
          users).user_conversations
  | [], st, h => h
  | u :: users, st, h => by
    simp only [insertSummaries, List.foldl]
    exact summaryRow_mem_insertSummaries_aux uid ts conversation_id resolved
      message_text users _
      (summaryRow_mem_insertUCRow uid u ts conversation_id resolved message_text
        _ h)

theorem summaryRow_mem_insertSummaries (uid ts conversation_id : Nat)
    (resolved : List Nat) (message_text : List Char) :
    ∀ (users : List Nat) (st : State), uid ∈ users →
      summaryRow uid ts conversation_id resolved message_text ∈
        (insertSummaries ts conversation_id resolved message_text st
          users).user_conversations
  | [], _, h => absurd h (List.not_mem_nil uid)
  | u :: users, st, h => by
    rcases List.mem_cons.mp h with h | h
    · subst h
      simp only [insertSummaries, List.foldl]
      exact summaryRow_mem_insertSummaries_aux uid ts conversation_id resolved
        message_text users _
        ((mem_upsertRow UCLe ucKey _ _ _).mpr (Or.inl rfl))
    · simp only [insertSummaries, List.foldl]
      exact summaryRow_mem_insertSummaries uid ts conversation_id resolved
        message_text users _ h

theorem insertSummaries_ucPartition_of_not_mem (ts conversation_id : Nat)
    (resolved : List Nat) (message_text : List Char) (u : Nat) :
    ∀ (users : List Nat) (st : State), (∀ uid ∈ users, uid ≠ u) →
      ucPartition (insertSummaries ts conversation_id resolved message_text st
        users) u = ucPartition st u
  | [], st, _ => rfl
  | v :: users, st, h => by
    have hv : v ≠ u := h v (List.mem_cons_self v users)
    have hstep :
        ucPartition
          { st with user_conversations :=
              (insertUCRow (summaryRow v ts conversation_id resolved message_text)
                st.user_conversations) } u = ucPartition st u := by
      unfold ucPartition insertUCRow
      exact filter_upsertRow_of_neg UCLe ucKey _ (by simp [summaryRow, hv])
        (fun a hk => by
          have ha : a.user_id = v := congrArg (fun k => k.1) hk
          simp [ha, hv])
        st.user_conversations
    rw [insertSummaries_cons,
      insertSummaries_ucPartition_of_not_mem ts conversation_id resolved
        message_text u users _ (fun uid hm => h uid (List.mem_cons_of_mem v hm)),
      hstep]

/-! ### Store invariant maintained by every operation -/

def msgIds (s : State) : List Nat := s.messages.map MessageRow.message_id

/-- The store invariant: both tables are physically kept in clustering
order, and message ids (uuid4) never repeat and stay below the fresh
counter. -/
structure Inv (s : State) : Prop where
  sortedMsgs : s.messages.Sorted MsgLe
  sortedUC : s.user_conversations.Sorted UCLe
  idsBound : ∀ r ∈ s.messages, r.message_id < s.nextId
  idsNodup : (msgIds s).Nodup

theorem inv_initState : Inv initState := by
  constructor <;> simp [initState, msgIds]

theorem create_message_messages (s : State) (ts conversation_id sender_id : Nat)
    (message_text : List Char) (participant_ids : Option (List Nat)) :
    (create_message s ts conversation_id sender_id message_text
        participant_ids).2.messages =
      insertMsgRow ⟨conversation_id, ts, s.nextId, sender_id, message_text⟩
        s.messages := by
  unfold create_message
  exact insertSummaries_messages _ _ _ _ _ _

theorem create_message_nextId (s : State) (ts conversation_id sender_id : Nat)
    (message_text : List Char) (participant_ids : Option (List Nat)) :
    (create_message s ts conversation_id sender_id message_text
        participant_ids).2.nextId = s.nextId + 1 := by
  unfold create_message
  exact insertSummaries_nextId _ _ _ _ _ _

theorem create_message_user_conversations (s : State)
    (ts conversation_id sender_id : Nat) (message_text : List Char)
    (participant_ids : Option (List Nat)) :
    (create_message s ts conversation_id sender_id message_text
        participant_ids).2.user_conversations =
      (insertSummaries ts conversation_id
        (resolveParticipants sender_id participant_ids) message_text
        { s with
            messages := (insertMsgRow
              ⟨conversation_id, ts, s.nextId, sender_id, message_text⟩
              s.messages),
            nextId := s.nextId + 1 }
        (resolveParticipants sender_id participant_ids)).user_conversations := rfl

theorem inv_create_message (s : State) (hs : Inv s)
    (ts conversation_id sender_id : Nat) (message_text : List Char)
    (participant_ids : Option (List Nat)) :
    Inv (create_message s ts conversation_id sender_id message_text
      participant_ids).2 := by
  set newRow : MessageRow :=
    ⟨conversation_id, ts, s.nextId, sender_id, message_text⟩ with hnew
  constructor
  · rw [create_message_messages]
    exact sorted_upsertRow MsgLe msgKey _ _ hs.sortedMsgs
  · rw [create_message_user_conversations]
    exact insertSummaries_sorted _ _ _ _ _ _ hs.sortedUC
  · intro r hr
    rw [create_message_messages] at hr
    rw [create_message_nextId]
    rcases (mem_upsertRow MsgLe msgKey _ r _).mp hr with h | h
    · subst h; simp
    · exact Nat.lt_succ_of_lt (hs.idsBound r h.1)
  · show ((create_message s ts conversation_id sender_id message_text
      participant_ids).2.messages.map MessageRow.message_id).Nodup
    rw [create_message_messages]
    unfold insertMsgRow upsertRow
    have hperm :
        List.Perm
          ((List.orderedInsert MsgLe newRow
            (s.messages.filter fun a => decide (msgKey a ≠ msgKey newRow))).map
              MessageRow.message_id)
          ((newRow ::
            s.messages.filter fun a => decide (msgKey a ≠ msgKey newRow)).map
              MessageRow.message_id) :=
      (List.perm_orderedInsert MsgLe newRow _).map MessageRow.message_id
    rw [hperm.nodup_iff]
    simp only [List.map_cons, List.nodup_cons]
    constructor
    · intro hmem
      rcases List.mem_map.mp hmem with ⟨r, hr, hid⟩
      have hrs : r ∈ s.messages := (List.filter_sublist s.messages).mem hr
      have hb := hs.idsBound r hrs
      have hid2 : r.message_id = s.nextId := hid
      omega
    · exact List.Nodup.sublist
        (((List.filter_sublist s.messages).map MessageRow.message_id))
        hs.idsNodup

theorem create_or_get_state (s : State) (ts user_id other_user_id : Nat) :
    (create_or_get_conversation s ts user_id other_user_id).2 = s ∨
    (create_or_get_conversation s ts user_id other_user_id).2 =
      { s with
          user_conversations :=
            (insertUCRow
              ⟨other_user_id, ts, s.nextId, [user_id, other_user_id].dedup,
                "New conversation".toList⟩
              (insertUCRow
                ⟨user_id, ts, s.nextId, [user_id, other_user_id].dedup,
                  "New conversation".toList⟩
                s.user_conversations)),
          nextId := s.nextId + 1 } := by
  rcases hf : (ucPartition s user_id).find? (fun r =>
      directMatch s user_id other_user_id r.conversation_id) with _ | r
  · right
    unfold create_or_get_conversation
    rw [hf]
    rfl
  · left
    unfold create_or_get_conversation
    rw [hf]

theorem inv_create_or_get (s : State) (hs : Inv s)
    (ts user_id other_user_id : Nat) :
    Inv (create_or_get_conversation s ts user_id other_user_id).2 := by
  rcases create_or_get_state s ts user_id other_user_id with h | h
  · rw [h]; exact hs
  · rw [h]
    constructor
    · exact hs.sortedMsgs
    · exact sorted_upsertRow UCLe ucKey _ _
        (sorted_upsertRow UCLe ucKey _ _ hs.sortedUC)
    · intro r hr
      exact Nat.lt_succ_of_lt (hs.idsBound r hr)
    · exact hs.idsNodup

theorem inv_applyOp (s : State) (hs : Inv s) (op : Op) : Inv (applyOp s op) := by
  cases op with
  | append ts c snd txt pids => exact inv_create_message s hs ts c snd txt pids
  | direct ts u o => exact inv_create_or_get s hs ts u o

theorem inv_foldl (ops : List Op) :
    ∀ s : State, Inv s → Inv (ops.foldl applyOp s) := by
  induction ops with
  | nil => exact fun s hs => hs
  | cons op ops ih => exact fun s hs => ih _ (inv_applyOp s hs op)

/-- Every store reachable by a history of writes satisfies the invariant. -/
theorem inv_run (ops : List Op) : Inv (run ops) :=
  inv_foldl ops initState inv_initState

/-! ### The strict per-conversation ordering -/

/-- `a` comes strictly before `b` in the clustering order of a
conversation partition: later timestamp first, ties broken by
`message_id` ascending. -/
def MsgBefore (a b : MessageRow) : Prop :=
  b.message_timestamp < a.message_timestamp ∨
    (a.message_timestamp = b.message_timestamp ∧ a.message_id < b.message_id)

theorem msgPartition_pairwise (s : State) (hs : Inv s) (c : Nat) :
    (msgPartition s c).Pairwise MsgBefore := by
  have hle : (msgPartition s c).Pairwise MsgLe :=
    List.Pairwise.filter _ hs.sortedMsgs
  have hne : s.messages.Pairwise
      (fun a b : MessageRow => a.message_id ≠ b.message_id) :=
    List.pairwise_map.mp hs.idsNodup
  have hne2 : (msgPartition s c).Pairwise
      (fun a b : MessageRow => a.message_id ≠ b.message_id) :=
    List.Pairwise.filter _ hne
  refine (hle.and hne2).imp_of_mem ?_
  intro a b ha hb hab
  have hac : a.conversation_id = c := by
    simpa using (List.mem_filter.mp ha).2
  have hbc : b.conversation_id = c := by
    simpa using (List.mem_filter.mp hb).2
  rcases hab with ⟨hle1, hne1⟩
  unfold MsgLe at hle1
  unfold MsgBefore
  omega

/-! ### Rows written by one `create_message` call -/

theorem create_message_writes (s : State) (ts conversation_id sender_id : Nat)
    (message_text : List Char) (participant_ids : Option (List Nat)) :
    (⟨conversation_id, ts, s.nextId, sender_id, message_text⟩ : MessageRow) ∈
        (create_message s ts conversation_id sender_id message_text
          participant_ids).2.messages ∧
    ∀ uid ∈ resolveParticipants sender_id participant_ids,
      summaryRow uid ts conversation_id
          (resolveParticipants sender_id participant_ids) message_text ∈
        (create_message s ts conversation_id sender_id message_text
          participant_ids).2.user_conversations := by
  constructor
  · rw [create_message_messages]
    exact (mem_upsertRow MsgLe msgKey _ _ _).mpr (Or.inl rfl)
  · intro uid hm
    rw [create_message_user_conversations]
    exact summaryRow_mem_insertSummaries uid ts conversation_id _ message_text
      _ _ hm

/-! ### Claim theorems -/

/-- C1: for every sequence of write operations, `get_conversation_messages`
returns exactly a prefix (`limit` rows) of the stored conversation
partition in the store's clustering order on
`(message_timestamp DESC, message_id ASC)`, and both the partition and
the returned page are strictly ordered: strictly descending timestamps,
with messages sharing a timestamp in strictly ascending `message_id`
order. -/
theorem listByConversation_clustering_order (ops : List Op) (c : Nat)
    (page : Int) (limit : Nat) :
    (get_conversation_messages (run ops) c page limit).1 =
        (msgPartition (run ops) c).take limit ∧
    (msgPartition (run ops) c).Pairwise MsgBefore ∧
    (get_conversation_messages (run ops) c page limit).1.Pairwise MsgBefore := by
  refine ⟨rfl, msgPartition_pairwise _ (inv_run ops) c, ?_⟩
  exact (msgPartition_pairwise _ (inv_run ops) c).sublist
    (List.take_sublist _ _)

/-- C3: a successful `create_message` call writes the message-log row and
one summary row per resolved participant, and every one of those `N + 1`
rows carries the one timestamp `ts` of the call, with every summary row
carrying the same preview `message_text.take 100`. -/
theorem fanout_single_timestamp (s : State) (ts conversation_id sender_id : Nat)
    (message_text : List Char) (participant_ids : Option (List Nat)) :
    (⟨conversation_id, ts, s.nextId, sender_id, message_text⟩ : MessageRow) ∈
        (create_message s ts conversation_id sender_id message_text
          participant_ids).2.messages ∧
    ∀ uid ∈ resolveParticipants sender_id participant_ids,
      (⟨uid, ts, conversation_id,
          (resolveParticipants sender_id participant_ids).dedup,
          message_text.take 100⟩ : UserConversationRow) ∈
        (create_message s ts conversation_id sender_id message_text
          participant_ids).2.user_conversations :=
  create_message_writes s ts conversation_id sender_id message_text
    participant_ids

/-- Witness for C3: a concrete call with participants `[1, 2]` leaves the
log row and participant 2's summary row, both at timestamp 5. -/
theorem fanout_single_timestamp_witness :
    (⟨7, 5, 0, 1, ['h', 'i']⟩ : MessageRow) ∈
        (create_message initState 5 7 1 ['h', 'i']
          (some [1, 2])).2.messages ∧
    (⟨2, 5, 7, [1, 2], ['h', 'i']⟩ : UserConversationRow) ∈
        (create_message initState 5 7 1 ['h', 'i']
          (some [1, 2])).2.user_conversations :=
  ⟨(fanout_single_timestamp initState 5 7 1 ['h', 'i'] (some [1, 2])).1,
    (fanout_single_timestamp initState 5 7 1 ['h', 'i'] (some [1, 2])).2 2
      (by decide)⟩

/-- C4: when `message_text` is longer than 100 characters, every summary
row written by the call carries `message_text.take 100` — exactly the
first 100 characters, a strict truncation — while the message-log row
stores the full untruncated text. -/
theorem preview_exact_truncation (s : State) (ts conversation_id sender_id : Nat)
    (message_text : List Char) (participant_ids : Option (List Nat))
    (hlen : 100 < message_text.length) :
    (⟨conversation_id, ts, s.nextId, sender_id, message_text⟩ : MessageRow) ∈
        (create_message s ts conversation_id sender_id message_text
          participant_ids).2.messages ∧
    (∀ uid ∈ resolveParticipants sender_id participant_ids,
      (⟨uid, ts, conversation_id,
          (resolveParticipants sender_id participant_ids).dedup,
          message_text.take 100⟩ : UserConversationRow) ∈
        (create_message s ts conversation_id sender_id message_text
          participant_ids).2.user_conversations) ∧
    (message_text.take 100).length = 100 ∧
    message_text.take 100 ≠ message_text := by
  refine ⟨(create_message_writes s ts conversation_id sender_id message_text
      participant_ids).1,
    (create_message_writes s ts conversation_id sender_id message_text
      participant_ids).2, ?_, ?_⟩
  · rw [List.length_take]
    omega
  · intro heq
    have := congrArg List.length heq
    rw [List.length_take] at this
    omega

/-- Witness for C4: a 101-character text is truncated to its first 100
characters in the summary preview. -/
theorem preview_exact_truncation_witness :
    100 < (List.replicate 101 'a').length ∧
    ((List.replicate 101 'a').take 100).length = 100 ∧
    (List.replicate 101 'a').take 100 ≠ List.replicate 101 'a' := by
  refine ⟨by simp, ?_, ?_⟩
  · exact (preview_exact_truncation initState 5 7 1 (List.replicate 101 'a')
      none (by simp)).2.2.1
  · exact (preview_exact_truncation initState 5 7 1 (List.replicate 101 'a')
      none (by simp)).2.2.2

/-- C5: `create_message` with `participant_ids` absent writes exactly one
summary row — the sender's — so every other user's summary partition,
and hence their `get_user_conversations` listing, is unchanged. -/
theorem absent_participants_only_sender (s : State)
    (ts conversation_id sender_id : Nat) (message_text : List Char)
    (u : Nat) (hu : u ≠ sender_id) (page page2 : Int) (limit : Nat) :
    (create_message s ts conversation_id sender_id message_text
        none).2.user_conversations =
      insertUCRow (summaryRow sender_id ts conversation_id [sender_id]
        message_text) s.user_conversations ∧
    ucPartition (create_message s ts conversation_id sender_id message_text
        none).2 u = ucPartition s u ∧
    get_user_conversations (create_message s ts conversation_id sender_id
        message_text none).2 u page limit =
      get_user_conversations s u page2 limit := by
  have hpart : ucPartition (create_message s ts conversation_id sender_id
      message_text none).2 u = ucPartition s u := by
    show ucPartition (insertSummaries ts conversation_id [sender_id]
      message_text _ [sender_id]) u = ucPartition s u
    rw [insertSummaries_ucPartition_of_not_mem ts conversation_id [sender_id]
      message_text u [sender_id] _ (by simpa using fun h => (hu h.symm).elim)]
    rfl
  refine ⟨rfl, hpart, ?_⟩
  unfold get_user_conversations
  rw [hpart]

/-- Witness for C5: after a sender-only append, user 2's summary listing
is still empty. -/
theorem absent_participants_only_sender_witness :
    ucPartition (create_message initState 5 7 1 ['h', 'i'] none).2 2 =
      ucPartition initState 2 ∧
    get_user_conversations (create_message initState 5 7 1 ['h', 'i']
        none).2 2 1 20 =
      get_user_conversations initState 2 1 20 :=
  ⟨(absent_participants_only_sender initState 5 7 1 ['h', 'i'] 2 (by decide)
      1 1 20).2.1,
    (absent_participants_only_sender initState 5 7 1 ['h', 'i'] 2 (by decide)
      1 1 20).2.2⟩

/-- C10: `create_message` with an explicitly empty participant list is
indistinguishable from a call with the argument absent — Python's
falsiness check conflates the two — and, like the absent case, writes
only the sender's summary row. -/
theorem empty_participants_like_absent (s : State)
    (ts conversation_id sender_id : Nat) (message_text : List Char) :
    create_message s ts conversation_id sender_id message_text (some []) =
      create_message s ts conversation_id sender_id message_text none ∧
    (create_message s ts conversation_id sender_id message_text
        (some [])).2.user_conversations =
      insertUCRow (summaryRow sender_id ts conversation_id [sender_id]
        message_text) s.user_conversations :=
  ⟨rfl, rfl⟩

theorem two_le_length_of_mem_ne {α : Type} : ∀ {l : List α} {a b : α},
    a ∈ l → b ∈ l → a ≠ b → 2 ≤ l.length
  | [], a, _, ha, _, _ => absurd ha (List.not_mem_nil a)
  | [x], a, b, ha, hb, hab => by
    simp only [List.mem_singleton] at ha hb
    exact absurd (ha.trans hb.symm) hab
  | _ :: _ :: t, _, _, _, _, _ => by
    simp only [List.length_cons]
    omega

/-- C2: appending to a conversation with a timestamp different from the
one in a participant's existing summary row writes a new summary row at
a new clustering position and leaves the old row in place — no deletion,
no in-place overwrite — so a `get_user_conversations` page that covers
the partition returns at least two entries for that `conversation_id`. -/
theorem new_timestamp_duplicates_summary (s : State)
    (r0 : UserConversationRow) (h0 : r0 ∈ s.user_conversations)
    (ts : Nat) (hts : ts ≠ r0.last_activity)
    (sender_id : Nat) (message_text : List Char)
    (participant_ids : Option (List Nat))
    (hmem : r0.user_id ∈ resolveParticipants sender_id participant_ids)
    (page : Int) (limit : Nat)
    (hlimit : (ucPartition (create_message s ts r0.conversation_id sender_id
        message_text participant_ids).2 r0.user_id).length ≤ limit) :
    r0 ∈ (create_message s ts r0.conversation_id sender_id message_text
        participant_ids).2.user_conversations ∧
    summaryRow r0.user_id ts r0.conversation_id
        (resolveParticipants sender_id participant_ids) message_text ∈
      (create_message s ts r0.conversation_id sender_id message_text
        participant_ids).2.user_conversations ∧
    2 ≤ ((get_user_conversations (create_message s ts r0.conversation_id
          sender_id message_text participant_ids).2 r0.user_id page
          limit).1.filter
        fun r => decide (r.conversation_id = r0.conversation_id)).length := by
  have hold : r0 ∈ (create_message s ts r0.conversation_id sender_id
      message_text participant_ids).2.user_conversations := by
    rw [create_message_user_conversations]
    exact insertSummaries_mem_of_ne_ts ts r0.conversation_id _ message_text r0
      (Ne.symm hts) _ _ h0
  have hnew : summaryRow r0.user_id ts r0.conversation_id
      (resolveParticipants sender_id participant_ids) message_text ∈
      (create_message s ts r0.conversation_id sender_id message_text
        participant_ids).2.user_conversations :=
    (create_message_writes s ts r0.conversation_id sender_id message_text
      participant_ids).2 r0.user_id hmem
  refine ⟨hold, hnew, ?_⟩
  have hfull : (get_user_conversations (create_message s ts r0.conversation_id
      sender_id message_text participant_ids).2 r0.user_id page limit).1 =
      ucPartition (create_message s ts r0.conversation_id sender_id
        message_text participant_ids).2 r0.user_id :=
    List.take_of_length_le hlimit
  rw [hfull]
  have hne : r0 ≠ summaryRow r0.user_id ts r0.conversation_id
      (resolveParticipants sender_id participant_ids) message_text := by
    intro h
    exact hts ((congrArg UserConversationRow.last_activity h).symm)
  refine two_le_length_of_mem_ne (a := r0)
    (b := summaryRow r0.user_id ts r0.conversation_id
      (resolveParticipants sender_id participant_ids) message_text)
    ?_ ?_ hne
  · exact List.mem_filter.mpr ⟨List.mem_filter.mpr ⟨hold, by simp⟩, by simp⟩
  · exact List.mem_filter.mpr ⟨List.mem_filter.mpr ⟨hnew, by simp [summaryRow]⟩,
      by simp [summaryRow]⟩

/-- Witness for C2: after an append at timestamp 0, a second append to
the same conversation at timestamp 1 leaves the sender with two summary
rows for conversation 7. -/
theorem new_timestamp_duplicates_summary_witness :
    (⟨1, 0, 7, [1], ['a']⟩ : UserConversationRow) ∈
      (create_message (create_message initState 0 7 1 ['a'] none).2 1 7 1
        ['b'] none).2.user_conversations ∧
    2 ≤ ((get_user_conversations (create_message (create_message initState 0
          7 1 ['a'] none).2 1 7 1 ['b'] none).2 1 1 20).1.filter
        fun r => decide (r.conversation_id = 7)).length :=
  ⟨(new_timestamp_duplicates_summary (create_message initState 0 7 1 ['a']
      none).2 ⟨1, 0, 7, [1], ['a']⟩ (by decide) 1 (by decide) 1 ['b'] none
      (by decide) 1 20 (by decide)).1,
    (new_timestamp_duplicates_summary (create_message initState 0 7 1 ['a']
      none).2 ⟨1, 0, 7, [1], ['a']⟩ (by decide) 1 (by decide) 1 ['b'] none
      (by decide) 1 20 (by decide)).2.2⟩

/-- A conversation with three messages at timestamps 1, 2, 3: the state
used to separate `get_messages_before_timestamp` pages from
`get_conversation_messages` pages. -/
def c8state : State :=
  run [.append 1 7 1 ['a'] none, .append 2 7 1 ['b'] none,
    .append 3 7 1 ['c'] none]

/-- Counterexample to C8 as stated: with three messages at timestamps
1, 2, 3 and `limit = 1`, `get_messages_before_timestamp` before
timestamp 3 returns the message at timestamp 2, which is not an element
of the page `get_conversation_messages` returns at the same limit — the
page is not a subset of the `ListByConversation` page. -/
theorem listBefore_not_subset_counterexample :
    ¬ (∀ m ∈ (get_messages_before_timestamp c8state 7 3 1 1).1,
        m ∈ (get_conversation_messages c8state 7 1 1).1) := by
  decide

/-- C8 (amended): `get_messages_before_timestamp` returns exactly the
first `limit` stored messages with timestamp strictly below `T`, in the
same newest-first clustering order — a sublist of the full conversation
partition, and a sublist of the `get_conversation_messages` page
whenever that page's limit covers the whole conversation; called with
the timestamp of the conversation's oldest message it returns an empty
page with count 0. -/
theorem listBefore_restriction (s : State) (c T : Nat) (page page2 : Int)
    (limit limit2 : Nat) :
    (get_messages_before_timestamp s c T page limit).1 =
        ((msgPartition s c).filter fun r =>
          decide (r.message_timestamp < T)).take limit ∧
    (∀ m ∈ (get_messages_before_timestamp s c T page limit).1,
      m.message_timestamp < T) ∧
    (get_messages_before_timestamp s c T page limit).1.Sublist
      (msgPartition s c) ∧
    ((msgPartition s c).length ≤ limit2 →
      (get_messages_before_timestamp s c T page limit).1.Sublist
        (get_conversation_messages s c page2 limit2).1) ∧
    ((∀ m ∈ msgPartition s c, T ≤ m.message_timestamp) →
      (get_messages_before_timestamp s c T page limit).1 = [] ∧
      (get_messages_before_timestamp s c T page limit).2 = 0) := by
  have hsub : (get_messages_before_timestamp s c T page limit).1.Sublist
      (msgPartition s c) :=
    (List.take_sublist _ _).trans (List.filter_sublist _)
  refine ⟨rfl, ?_, hsub, ?_, ?_⟩
  · intro m hm
    have hm2 := (List.take_sublist _ _).mem hm
    simpa using (List.mem_filter.mp hm2).2
  · intro h
    have : (get_conversation_messages s c page2 limit2).1 = msgPartition s c :=
      List.take_of_length_le h
    rw [this]
    exact hsub
  · intro h
    have hnil : (msgPartition s c).filter
        (fun r => decide (r.message_timestamp < T)) = [] := by
      rw [List.filter_eq_nil_iff]
      intro m hm
      simpa using Nat.not_lt.mpr (h m hm)
    constructor
    · show ((msgPartition s c).filter fun r =>
        decide (r.message_timestamp < T)).take limit = []
      rw [hnil]
      exact List.take_nil
    · show ((msgPartition s c).filter fun r =>
        decide (r.message_timestamp < T)).length = 0
      rw [hnil]
      rfl

/-- Witness for C8 (amended): in the three-message conversation,
the before-timestamp-3 page (limit 20) is a sublist of the full
`get_conversation_messages` page, and asking for messages before the
oldest timestamp 1 yields the empty page with count 0. -/
theorem listBefore_restriction_witness :
    (get_messages_before_timestamp c8state 7 3 1 20).1.Sublist
      (get_conversation_messages c8state 7 1 20).1 ∧
    (get_messages_before_timestamp c8state 7 1 1 20).1 = [] ∧
    (get_messages_before_timestamp c8state 7 1 1 20).2 = 0 :=
  ⟨(listBefore_restriction c8state 7 3 1 1 20 20).2.2.2.1 (by decide),
    ((listBefore_restriction c8state 7 1 1 1 20 20).2.2.2.2 (by decide)).1,
    ((listBefore_restriction c8state 7 1 1 1 20 20).2.2.2.2 (by decide)).2⟩

/-! ### Fault-model lemmas for C9 -/

theorem resolveParticipants_ne_nil (sender_id : Nat)
    (participant_ids : Option (List Nat)) :
    resolveParticipants sender_id participant_ids ≠ [] := by
  unfold resolveParticipants
  cases participant_ids with
  | none => simp
  | some l => cases l <;> simp

theorem writeSummaries_error_messages (fail : Nat → Bool) (ts c : Nat)
    (res : List Nat) (txt : List Char) :
    ∀ (users : List Nat) (i : Nat) (st st2 : State),
      writeSummaries fail ts c res txt i st users = Except.error st2 →
      st2.messages = st.messages
  | [], i, st, st2, h => by simp [writeSummaries] at h
  | u :: users, i, st, st2, h => by
    by_cases hf : fail i
    · rw [writeSummaries, if_pos hf] at h
      cases h
      rfl
    · rw [writeSummaries, if_neg hf] at h
      have h2 := writeSummaries_error_messages fail ts c res txt users (i + 1)
        _ st2 h
      exact h2

theorem writeSummaries_error_iff (fail : Nat → Bool) (ts c : Nat)
    (res : List Nat) (txt : List Char) :
    ∀ (users : List Nat) (i : Nat) (st : State),
      (∃ st2, writeSummaries fail ts c res txt i st users =
        Except.error st2) ↔
      ∃ k, k < users.length ∧ fail (i + k) = true
  | [], i, st => by simp [writeSummaries]
  | u :: users, i, st => by
    by_cases hf : fail i
    · constructor
      · intro _
        exact ⟨0, by simp, by simpa using hf⟩
      · intro _
        exact ⟨st, by simp [writeSummaries, hf]⟩
    · rw [writeSummaries, if_neg hf]
      rw [writeSummaries_error_iff fail ts c res txt users (i + 1) _]
      constructor
      · rintro ⟨k, hk, hfk⟩
        refine ⟨k + 1, by simpa using Nat.succ_lt_succ hk, ?_⟩
        rw [show i + (k + 1) = i + 1 + k by omega]
        exact hfk
      · rintro ⟨k, hk, hfk⟩
        match k, hk, hfk with
        | 0, _, hfk => exact absurd (by simpa using hfk) hf
        | k + 1, hk, hfk =>
          refine ⟨k, ?_, ?_⟩
          · simp only [List.length_cons] at hk
            omega
          · rw [show i + 1 + k = i + (k + 1) by omega]
            exact hfk

theorem writeSummaries_fail_head (fail : Nat → Bool) (ts c : Nat)
    (res : List Nat) (txt : List Char) (u : Nat) (users : List Nat)
    (i : Nat) (st : State) (hf : fail i = true) :
    writeSummaries fail ts c res txt i st (u :: users) = Except.error st := by
  rw [writeSummaries, if_pos hf]

theorem create_message_faulty_eq (fail : Nat → Bool) (s : State)
    (ts conversation_id sender_id : Nat) (message_text : List Char)
    (participant_ids : Option (List Nat)) (h0 : fail 0 = false) :
    create_message_faulty fail s ts conversation_id sender_id message_text
        participant_ids =
      match writeSummaries fail ts conversation_id
          (resolveParticipants sender_id participant_ids) message_text 1
          ⟨insertMsgRow ⟨conversation_id, ts, s.nextId, sender_id,
            message_text⟩ s.messages, s.user_conversations, s.nextId + 1⟩
          (resolveParticipants sender_id participant_ids) with
      | Except.error st => Except.error st
      | Except.ok st => Except.ok (s.nextId, st) := by
  unfold create_message_faulty
  rw [if_neg (by simp [h0])]

/-- C9: `create_message` raises exactly when some of its `N + 1` store
writes fails, and nothing is rolled back on failure: whenever the
message-log write (write 0) succeeded, the error state still contains
the message-log row; and if the very first summary write (write 1)
failed, no summary row at all was written — every user's
`get_user_conversations` listing is as before the call, while the
message sits in the log. -/
theorem append_failure_no_rollback (fail : Nat → Bool) (s : State)
    (ts conversation_id sender_id : Nat) (message_text : List Char)
    (participant_ids : Option (List Nat)) (page : Int) (limit : Nat) :
    ((∃ st, create_message_faulty fail s ts conversation_id sender_id
        message_text participant_ids = Except.error st) ↔
      ∃ i, i < (resolveParticipants sender_id participant_ids).length + 1 ∧
        fail i = true) ∧
    (∀ st, create_message_faulty fail s ts conversation_id sender_id
        message_text participant_ids = Except.error st → fail 0 = false →
      (⟨conversation_id, ts, s.nextId, sender_id, message_text⟩ : MessageRow)
        ∈ st.messages) ∧
    (∀ st, create_message_faulty fail s ts conversation_id sender_id
        message_text participant_ids = Except.error st → fail 0 = false →
      fail 1 = true →
      st.user_conversations = s.user_conversations ∧
      ∀ u, get_user_conversations st u page limit =
        get_user_conversations s u page limit) := by
  by_cases h0 : fail 0
  · have hcf : create_message_faulty fail s ts conversation_id sender_id
        message_text participant_ids =
        Except.error { s with nextId := s.nextId + 1 } := by
      unfold create_message_faulty
      rw [if_pos h0]
    refine ⟨⟨fun _ => ⟨0, by omega, h0⟩, fun _ => ⟨_, hcf⟩⟩, ?_, ?_⟩
    · intro st _ hf0
      exact absurd h0 (by simp [hf0])
    · intro st _ hf0
      exact absurd h0 (by simp [hf0])
  · have h0f : fail 0 = false := by simpa using h0
    rw [create_message_faulty_eq fail s ts conversation_id sender_id
      message_text participant_ids h0f]
    rcases hw : writeSummaries fail ts conversation_id
        (resolveParticipants sender_id participant_ids) message_text 1
        ⟨insertMsgRow ⟨conversation_id, ts, s.nextId, sender_id,
          message_text⟩ s.messages, s.user_conversations, s.nextId + 1⟩
        (resolveParticipants sender_id participant_ids) with st2 | st2
    · refine ⟨⟨fun _ => ?_, fun _ => ⟨st2, rfl⟩⟩, ?_, ?_⟩
      · obtain ⟨k, hk, hfk⟩ :=
          (writeSummaries_error_iff fail ts conversation_id _ message_text
            _ 1 _).mp ⟨st2, hw⟩
        exact ⟨k + 1, by omega, by rw [show k + 1 = 1 + k by omega]; exact hfk⟩
      · intro st hst _
        have hst2 : st2 = st := by
          injection hst
        rw [← hst2,
          writeSummaries_error_messages fail ts conversation_id _
            message_text _ 1 _ st2 hw]
        exact (mem_upsertRow MsgLe msgKey _ _ _).mpr (Or.inl rfl)
      · intro st hst _ hf1
        have hst2 : st2 = st := by
          injection hst
        rcases hres : resolveParticipants sender_id participant_ids with
          _ | ⟨u, rest⟩
        · exact absurd hres (resolveParticipants_ne_nil sender_id
            participant_ids)
        · rw [hres] at hw
          rw [writeSummaries_fail_head fail ts conversation_id _ message_text
            u rest 1 _ hf1] at hw
          have hs1 : Except.error
              (⟨insertMsgRow ⟨conversation_id, ts, s.nextId, sender_id,
                message_text⟩ s.messages, s.user_conversations,
                s.nextId + 1⟩ : State) = Except.error st2 := hw
          have hs2 : (⟨insertMsgRow ⟨conversation_id, ts, s.nextId, sender_id,
              message_text⟩ s.messages, s.user_conversations,
              s.nextId + 1⟩ : State) = st2 := by
            injection hs1
          rw [← hst2, ← hs2]
          exact ⟨rfl, fun u => rfl⟩
    · refine ⟨⟨?_, ?_⟩, ?_, ?_⟩
      · rintro ⟨st, hst⟩
        exact Except.noConfusion hst
      · rintro ⟨i, hi, hfi⟩
        match i, hi, hfi with
        | 0, _, hfi => exact absurd hfi (by simp [h0f])
        | k + 1, hi, hfi =>
          have herr : ∃ st2b, writeSummaries fail ts conversation_id
              (resolveParticipants sender_id participant_ids) message_text 1
              ⟨insertMsgRow ⟨conversation_id, ts, s.nextId, sender_id,
                message_text⟩ s.messages, s.user_conversations,
                s.nextId + 1⟩
              (resolveParticipants sender_id participant_ids) =
              Except.error st2b :=
            (writeSummaries_error_iff fail ts conversation_id _ message_text
              _ 1 _).mpr ⟨k, by omega,
                by rw [show 1 + k = k + 1 by omega]; exact hfi⟩
          obtain ⟨st2b, herr⟩ := herr
          rw [hw] at herr
          exact Except.noConfusion herr
      · intro st hst
        exact absurd hst (fun h => Except.noConfusion h)
      · intro st hst
        exact absurd hst (fun h => Except.noConfusion h)

/-- Witness for C9: with exactly the first summary write failing (write
index 1), the call on the empty store errors, the error state holds the
message-log row, and the sender's summary listing is unchanged (empty). -/
theorem append_failure_no_rollback_witness :
    (∃ st, create_message_faulty (fun i => decide (i = 1)) initState 5 7 1
      ['h', 'i'] (some [1, 2]) = Except.error st) ∧
    (⟨7, 5, 0, 1, ['h', 'i']⟩ : MessageRow) ∈
      (⟨[⟨7, 5, 0, 1, ['h', 'i']⟩], [], 1⟩ : State).messages ∧
    (⟨[⟨7, 5, 0, 1, ['h', 'i']⟩], [], 1⟩ : State).user_conversations =
      initState.user_conversations ∧
    ∀ u, get_user_conversations (⟨[⟨7, 5, 0, 1, ['h', 'i']⟩], [], 1⟩ : State)
      u 1 20 = get_user_conversations initState u 1 20 :=
  ⟨(append_failure_no_rollback (fun i => decide (i = 1)) initState 5 7 1
      ['h', 'i'] (some [1, 2]) 1 20).1.mpr ⟨1, by decide, by decide⟩,
    (append_failure_no_rollback (fun i => decide (i = 1)) initState 5 7 1
      ['h', 'i'] (some [1, 2]) 1 20).2.1
      ⟨[⟨7, 5, 0, 1, ['h', 'i']⟩], [], 1⟩ rfl (by decide),
    ((append_failure_no_rollback (fun i => decide (i = 1)) initState 5 7 1
      ['h', 'i'] (some [1, 2]) 1 20).2.2
      ⟨[⟨7, 5, 0, 1, ['h', 'i']⟩], [], 1⟩ rfl (by decide) (by decide)).1,
    ((append_failure_no_rollback (fun i => decide (i = 1)) initState 5 7 1
      ['h', 'i'] (some [1, 2]) 1 20).2.2
      ⟨[⟨7, 5, 0, 1, ['h', 'i']⟩], [], 1⟩ rfl (by decide) (by decide)).2⟩

/-! ### The two-party lookup scan (C6, C7) -/

theorem find_first_sorted (u : Nat) (p : UserConversationRow → Bool) :
    ∀ l : List UserConversationRow, l.Sorted UCLe →
      (∀ x ∈ l, x.user_id = u) →
      ∀ r, l.find? p = some r →
        ∀ r2 ∈ l, p r2 = true → r2.last_activity ≤ r.last_activity
  | [], _, _, r, h => by simp at h
  | a :: l, hs, hu, r, h => by
    intro r2 hr2 hp2
    rcases hpa : p a with _ | _
    · rw [List.find?_cons_of_neg l (by simp [hpa])] at h
      rcases List.mem_cons.mp hr2 with rfl | hr2m
      · rw [hpa] at hp2
        cases hp2
      · exact find_first_sorted u p l hs.of_cons
          (fun x hx => hu x (List.mem_cons_of_mem a hx)) r h r2 hr2m hp2
    · rw [List.find?_cons_of_pos l hpa] at h
      have hra : a = r := by injection h
      subst hra
      rcases List.mem_cons.mp hr2 with rfl | hr2m
      · exact Nat.le_refl _
      · have hle : UCLe a r2 := List.rel_of_sorted_cons hs r2 hr2m
        have h1 : a.user_id = u := hu a (List.mem_cons_self a l)
        have h2 : r2.user_id = u := hu r2 (List.mem_cons_of_mem a hr2m)
        unfold UCLe at hle
        omega

/-- C6: `create_or_get_conversation` reports an existing conversation
(`created = false`) exactly when some row of the caller's summary scan
passes the two-party membership test, and in that case the returned id
is that of a passing row whose `last_activity` is maximal among all
passing rows — the scan runs in `last_activity DESC` order and the
first match wins, so the most recently active qualifying conversation
is preferred. -/
theorem direct_match_scan (s : State) (hs : Inv s)
    (ts user_id other_user_id : Nat) :
    ((create_or_get_conversation s ts user_id other_user_id).1.2 = false ↔
      ∃ r ∈ ucPartition s user_id,
        directMatch s user_id other_user_id r.conversation_id = true) ∧
    ∀ cid, (create_or_get_conversation s ts user_id other_user_id).1 =
        (cid, false) →
      ∃ r ∈ ucPartition s user_id, r.conversation_id = cid ∧
        directMatch s user_id other_user_id r.conversation_id = true ∧
        ∀ r2 ∈ ucPartition s user_id,
          directMatch s user_id other_user_id r2.conversation_id = true →
          r2.last_activity ≤ r.last_activity := by
  rcases hf : (ucPartition s user_id).find? (fun r =>
      directMatch s user_id other_user_id r.conversation_id) with _ | r
  · have h1 : (create_or_get_conversation s ts user_id other_user_id).1 =
        (s.nextId, true) := by
      unfold create_or_get_conversation
      rw [hf]
    constructor
    · rw [h1]
      constructor
      · intro h
        exact absurd h (by simp)
      · rintro ⟨r, hr, hp⟩
        exact absurd hp (by simpa using List.find?_eq_none.mp hf r hr)
    · intro cid hcid
      rw [h1] at hcid
      have : (true : Bool) = false := congrArg Prod.snd hcid
      cases this
  · have h1 : (create_or_get_conversation s ts user_id other_user_id).1 =
        (r.conversation_id, false) := by
      unfold create_or_get_conversation
      rw [hf]
    have hpr : directMatch s user_id other_user_id r.conversation_id = true :=
      by simpa using List.find?_some hf
    have hmr : r ∈ ucPartition s user_id := List.mem_of_find?_eq_some hf
    constructor
    · rw [h1]
      exact ⟨fun _ => ⟨r, hmr, hpr⟩, fun _ => rfl⟩
    · intro cid hcid
      rw [h1] at hcid
      have hc : r.conversation_id = cid := congrArg Prod.fst hcid
      refine ⟨r, hmr, hc, hpr, ?_⟩
      intro r2 hr2 hp2
      refine find_first_sorted user_id _ (ucPartition s user_id)
        (List.Pairwise.filter _ hs.sortedUC) ?_ r hf r2 hr2 (by simpa using hp2)
      intro x hx
      simpa using (List.mem_filter.mp hx).2

/-- Witness for C6: on a store holding one direct conversation between
users 1 and 2, the lookup reports it as existing. -/
theorem direct_match_scan_witness :
    (create_or_get_conversation (run [Op.direct 0 1 2]) 5 1 2).1.2 = false :=
  (direct_match_scan (run [Op.direct 0 1 2]) (inv_run _) 5 1 2).1.mpr
    ⟨⟨1, 0, 0, [1, 2], "New conversation".toList⟩, by decide, by decide⟩

/-- Rows with the same `user_conversations` primary key share the
conversation id, so an upsert cannot disturb the filter for a different
conversation id. -/
theorem filter_cid_insertUCRow (row : UserConversationRow) (X : Nat)
    (hne : row.conversation_id ≠ X) (l : List UserConversationRow) :
    (insertUCRow row l).filter (fun r => decide (r.conversation_id = X)) =
      l.filter (fun r => decide (r.conversation_id = X)) := by
  unfold insertUCRow
  exact filter_upsertRow_of_neg UCLe ucKey row (by simp [hne])
    (fun a hk => by
      have ha : a.conversation_id = row.conversation_id :=
        congrArg (fun k => k.2.2) hk
      simp [ha, hne]) l

/-- Freshly generated conversation ids never collide with stored ones:
the model of `uuid.uuid4()` uniqueness. -/
def ConvIdsFresh (s : State) : Prop :=
  ∀ r ∈ s.user_conversations, r.conversation_id < s.nextId

/-- Counterexample to C7 as stated for arbitrary users: with both
arguments equal (`A = B = 0`) on the empty store, the first call creates
conversation 0 whose stored participant set is `{0}` (size 1), so the
second call fails the size-2 membership test and creates a different
conversation with `created = true`. -/
theorem direct_conversation_idempotent_counterexample :
    ¬ ((create_or_get_conversation
          (create_or_get_conversation initState 0 0 0).2 1 0 0).1 =
        ((create_or_get_conversation initState 0 0 0).1.1, false)) := by
  decide

/-- C7 (amended to distinct users): for `A ≠ B`, calling
`create_or_get_conversation` twice with no other intervening writes
returns the same conversation id the second time with
`created = false`, whether the first call found or created it —
assuming stored conversation ids are distinct from freshly generated
ones (uuid4 freshness). -/
theorem direct_conversation_idempotent (s : State) (hF : ConvIdsFresh s)
    (A B : Nat) (hAB : A ≠ B) (ts1 ts2 : Nat) :
    (create_or_get_conversation (create_or_get_conversation s ts1 A B).2 ts2
        A B).1.1 = (create_or_get_conversation s ts1 A B).1.1 ∧
    (create_or_get_conversation (create_or_get_conversation s ts1 A B).2 ts2
        A B).1.2 = false := by
  rcases hf : (ucPartition s A).find? (fun r =>
      directMatch s A B r.conversation_id) with _ | r
  · -- first call created a new conversation
    have hded : ([A, B] : List Nat).dedup = [A, B] := by
      rw [List.dedup_cons_of_not_mem (by simp [hAB]),
        List.dedup_cons_of_not_mem (by simp), List.dedup_nil]
    set rowA : UserConversationRow :=
      ⟨A, ts1, s.nextId, ([A, B] : List Nat).dedup,
        "New conversation".toList⟩ with hrowA
    set rowB : UserConversationRow :=
      ⟨B, ts1, s.nextId, ([A, B] : List Nat).dedup,
        "New conversation".toList⟩ with hrowB
    set s2 : State :=
      { s with
          user_conversations :=
            (insertUCRow rowB (insertUCRow rowA s.user_conversations)),
          nextId := s.nextId + 1 } with hs2
    have h1 : create_or_get_conversation s ts1 A B = ((s.nextId, true), s2) := by
      unfold create_or_get_conversation
      rw [hf]
      rfl
    have hmemS2 : ∀ x, x ∈ s2.user_conversations →
        x = rowB ∨ x = rowA ∨ x ∈ s.user_conversations := by
      intro x hx
      rcases (mem_upsertRow UCLe ucKey rowB x _).mp hx with h | ⟨h, _⟩
      · exact Or.inl h
      · rcases (mem_upsertRow UCLe ucKey rowA x _).mp h with h2 | ⟨h2, _⟩
        · exact Or.inr (Or.inl h2)
        · exact Or.inr (Or.inr h2)
    have hrowAmem : rowA ∈ s2.user_conversations := by
      refine (mem_upsertRow UCLe ucKey rowB rowA _).mpr (Or.inr ⟨?_, ?_⟩)
      · exact (mem_upsertRow UCLe ucKey rowA rowA _).mpr (Or.inl rfl)
      · intro hk
        exact hAB (congrArg (fun k => k.1) hk)
    have hgetne : ∀ X, X ≠ s.nextId →
        get_conversation s2 X = get_conversation s X := by
      intro X hX
      unfold get_conversation
      show ((insertUCRow rowB (insertUCRow rowA
        s.user_conversations)).filter _).head? = _
      rw [filter_cid_insertUCRow rowB X (Ne.symm hX),
        filter_cid_insertUCRow rowA X (Ne.symm hX)]
    have hmatchne : ∀ X, X ≠ s.nextId →
        directMatch s2 A B X = directMatch s A B X := by
      intro X hX
      unfold directMatch
      rw [hgetne X hX]
    have hgetc1 : ∃ row2, get_conversation s2 s.nextId = some row2 ∧
        row2.participant_ids = [A, B] := by
      have hmemf : rowA ∈ s2.user_conversations.filter
          (fun r => decide (r.conversation_id = s.nextId)) :=
        List.mem_filter.mpr ⟨hrowAmem, by simp [hrowA]⟩
      have hne : s2.user_conversations.filter
          (fun r => decide (r.conversation_id = s.nextId)) ≠ [] :=
        List.ne_nil_of_mem hmemf
      refine ⟨(s2.user_conversations.filter
        (fun r => decide (r.conversation_id = s.nextId))).head hne, ?_, ?_⟩
      · show (s2.user_conversations.filter
          (fun r => decide (r.conversation_id = s.nextId))).head? = _
        exact List.head?_eq_head hne
      have hhm := List.head_mem hne
      have hcid : ((s2.user_conversations.filter
          (fun r => decide (r.conversation_id = s.nextId))).head
            hne).conversation_id = s.nextId := by
        simpa using (List.mem_filter.mp hhm).2
      rcases hmemS2 _ ((List.mem_filter.mp hhm).1) with h | h | h
      · rw [h, hrowB]
        exact hded
      · rw [h, hrowA]
        exact hded
      · exact absurd hcid (Nat.ne_of_lt (hF _ h))
    have hmatchc1 : directMatch s2 A B s.nextId = true := by
      obtain ⟨row2, hrg, hrp⟩ := hgetc1
      unfold directMatch
      rw [hrg]
      simp [hrp]
    rcases hf2 : (ucPartition s2 A).find? (fun r =>
        directMatch s2 A B r.conversation_id) with _ | r2
    · exfalso
      have hmem : rowA ∈ ucPartition s2 A :=
        List.mem_filter.mpr ⟨hrowAmem, by simp [hrowA]⟩
      have hno := List.find?_eq_none.mp hf2 rowA hmem
      have : directMatch s2 A B rowA.conversation_id = true := by
        rw [hrowA]
        exact hmatchc1
      exact absurd this (by simpa using hno)
    · have hp2 : directMatch s2 A B r2.conversation_id = true := by
        simpa using List.find?_some hf2
      have hmem2 : r2 ∈ ucPartition s2 A := List.mem_of_find?_eq_some hf2
      have hcid : r2.conversation_id = s.nextId := by
        by_contra hnc
        have heq : directMatch s A B r2.conversation_id = true := by
          rw [← hmatchne _ hnc]
          exact hp2
        have hr2uc : r2 ∈ s2.user_conversations :=
          (List.mem_filter.mp hmem2).1
        rcases hmemS2 r2 hr2uc with h | h | h
        · rw [h, hrowB] at hnc
          exact hnc rfl
        · rw [h, hrowA] at hnc
          exact hnc rfl
        · have hpart : r2 ∈ ucPartition s A :=
            List.mem_filter.mpr ⟨h, (List.mem_filter.mp hmem2).2⟩
          exact absurd heq (by simpa using List.find?_eq_none.mp hf r2 hpart)
      have h2 : create_or_get_conversation s2 ts2 A B =
          ((r2.conversation_id, false), s2) := by
        unfold create_or_get_conversation
        rw [hf2]
      rw [h1]
      show (create_or_get_conversation s2 ts2 A B).1.1 = s.nextId ∧
        (create_or_get_conversation s2 ts2 A B).1.2 = false
      rw [h2]
      exact ⟨hcid, rfl⟩
  · -- first call found an existing conversation: the state is unchanged
    have h1 : create_or_get_conversation s ts1 A B =
        ((r.conversation_id, false), s) := by
      unfold create_or_get_conversation
      rw [hf]
    have h2 : create_or_get_conversation s ts2 A B =
        ((r.conversation_id, false), s) := by
      unfold create_or_get_conversation
      rw [hf]
    rw [h1]
    show (create_or_get_conversation s ts2 A B).1.1 = r.conversation_id ∧
      (create_or_get_conversation s ts2 A B).1.2 = false
    rw [h2]
    exact ⟨rfl, rfl⟩

/-- Witness for C7 (amended): users 1 ≠ 2 on the empty store — the
second call returns the conversation the first call created, with
`created = false`. -/
theorem direct_conversation_idempotent_witness :
    (create_or_get_conversation (create_or_get_conversation initState 0 1
        2).2 3 1 2).1.1 =
      (create_or_get_conversation initState 0 1 2).1.1 ∧
    (create_or_get_conversation (create_or_get_conversation initState 0 1
        2).2 3 1 2).1.2 = false :=
  direct_conversation_idempotent initState (by intro r hr; cases hr) 1 2
    (by decide) 0 3

end Messenger
